import Mathlib

/-!
Verification development for the rule-expression engine of the go-aci
package (Access Control Instruction builder).  The embedded Go sources
are `src/misc.go` (operator catalogs, keyword/operator permission maps,
identifier scanner, case-insensitive helpers) and the target-rule,
permission-bind-rule and test material in `src/unnamed/part_000` and
the test files.

Modelling conventions:
- pure Go functions become Lean functions; a Go `nil`/zero result
  becomes `Option` or a distinguished zero value, mirroring the
  package's fail-soft style;
- Go strings are modelled over their ASCII fragment (every catalog
  string and grammar token in the package is ASCII), so Go's Unicode
  case folding (`strings.EqualFold`, `strings.ToLower`) coincides with
  ASCII case mapping;
- Go `any`-typed parameters become small closed inductive types whose
  constructors are exactly the type-switch cases of the source;
- code of the repository that is not under `src/` (keyword stringers,
  the inheritance parser, the security-strength-factor setter, the
  attribute-type builder) is modelled from the specification, as noted
  on each such definition.
-/

/- ===================== ASCII string helpers ===================== -/

/-- ASCII lower-casing of one character.  Models `unicode`/`strings`
lower-casing on the ASCII fragment used throughout the package. -/
def lcChar (c : Char) : Char :=
  if 'A' ≤ c ∧ c ≤ 'Z' then Char.ofNat (c.toNat + 32) else c

/-- ASCII lower-casing of a string; models `strings.ToLower`, aliased
`lc` in `src/misc.go`. -/
def lcStr (s : String) : String := ⟨s.data.map lcChar⟩

/-- Case-insensitive string equality; models `strings.EqualFold`,
aliased `eq` in `src/misc.go`, over the ASCII fragment. -/
def eqFold (a b : String) : Bool := lcStr a == lcStr b

/-- Case-insensitive membership of a string in a slice.  Models the
package's `strInSliceFold` (the case-insensitive variant of
`strInSlice`, `src/misc.go` lines 314-321; the fold variant's file is
not under `src/` but its contract is fixed by its uses, e.g.
`rangeTargetRuleFuncMap` in `src/unnamed/part_000` lines 331-348). -/
def strInSliceFold (str : String) (slice : List String) : Bool :=
  slice.any (fun x => eqFold str x)

/-- ASCII lower-case letter test; models `unicode.IsLower` (aliased
`isLower` in `src/misc.go`) on ASCII input. -/
def isLowerCh (c : Char) : Bool := decide ('a' ≤ c ∧ c ≤ 'z')

/-- ASCII upper-case letter test; models `unicode.IsUpper` on ASCII
input. -/
def isUpperCh (c : Char) : Bool := decide ('A' ≤ c ∧ c ≤ 'Z')

/-- ASCII digit test; models `unicode.IsDigit` on ASCII input. -/
def isDigitCh (c : Char) : Bool := decide ('0' ≤ c ∧ c ≤ '9')

/-- Translation of `isAlnum` (`src/misc.go` lines 265-267). -/
def isAlnumCh (c : Char) : Bool := isLowerCh c || isUpperCh c || isDigitCh c

/-- Translation of `isIdentifier` (`src/misc.go` lines 279-307) over a
character list: nonempty, begins with a lower-case letter, ends in an
alphanumeric, and contains only alphanumerics, `;` and `-`. -/
def isIdentifierL (val : List Char) : Bool :=
  match val with
  | [] => false
  | c :: rest =>
    isLowerCh c &&
    isAlnumCh ((c :: rest).getLastD ' ') &&
    (c :: rest).all (fun ch => isAlnumCh ch || decide (ch = ';') || decide (ch = '-'))

/- ===================== ComparisonOperator ===================== -/

/-- The six comparison operators plus the invalid sentinel `badCop`
(`src/misc.go` lines 76-85; numeric values 0x0 through 0x6). -/
inductive Cop where
  | bad
  | eq
  | ne
  | lt
  | le
  | gt
  | ge
deriving DecidableEq

/-- Numeric value of a comparison operator (the underlying `uint8` of
the Go constants, `badCop = 0x0` through `Ge = 0x6`). -/
def Cop.toNat : Cop → Nat
  | .bad => 0
  | .eq => 1
  | .ne => 2
  | .lt => 3
  | .le => 4
  | .gt => 5
  | .ge => 6

/-- Canonical symbol of an operator: the `String()` form (`"="`, `"!="`,
…) documented at `src/unnamed/part_000` lines 331-348 and used as the
keys of `comparisonOperatorMap` (`src/misc.go` lines 640-647).  The
stringer itself lives in the operator source file, which is not under
`src/`; the three forms below are fixed by the doc comments and test
expectations in `src/` (`target_test.go`, `oid_test.go`).  The `bad`
sentinel renders a non-matching placeholder. -/
def Cop.string : Cop → String
  | .eq => "="
  | .ne => "!="
  | .lt => "<"
  | .le => "<="
  | .bad => "<invalidCop>"
  | .gt => ">"
  | .ge => ">="

/-- Short context name of an operator: the `Context()` form (`"Eq"`,
`"Ne"`, …), per the `Index` doc comment (`src/unnamed/part_000` lines
256-287) and the `Context()` outputs asserted in `target_test.go`. -/
def Cop.context : Cop → String
  | .bad => "<invalidCop>"
  | .eq => "Eq"
  | .ne => "Ne"
  | .lt => "Lt"
  | .le => "Le"
  | .gt => "Gt"
  | .ge => "Ge"

/-- Long description of an operator: the `Description()` form
(`"Equal To"`, …), per the `Index` doc comment and the
`[Equal To]`/`[Not Equal To]` outputs asserted in `target_test.go`
lines 167-178. -/
def Cop.description : Cop → String
  | .bad => "<invalidCop>"
  | .eq => "Equal To"
  | .ne => "Not Equal To"
  | .lt => "Less Than"
  | .le => "Less Than Or Equal"
  | .gt => "Greater Than"
  | .ge => "Greater Than Or Equal"

/-- The six valid operators in numeric order. -/
def sixCops : List Cop := [.eq, .ne, .lt, .le, .gt, .ge]

/-- Translation of `comparisonOperatorMap` (`src/misc.go` lines
640-647): the map from each operator's `String()` symbol to the
operator.  A Go map is modelled as an association list; iteration
order is immaterial because the six keys are pairwise distinct. -/
def comparisonOperatorMap : List (String × Cop) :=
  [(Cop.string .eq, .eq), (Cop.string .ne, .ne), (Cop.string .lt, .lt),
   (Cop.string .le, .le), (Cop.string .gt, .gt), (Cop.string .ge, .ge)]

/-- Translation of `matchCOP` (`src/misc.go` lines 101-109): exact
(case-sensitive) lookup of the symbol in `comparisonOperatorMap`,
returning `badCop` when no key matches. -/
def matchCOP (op : String) : Cop :=
  match comparisonOperatorMap.find? (fun kv => decide (op = kv.1)) with
  | some kv => kv.2
  | none => .bad

/- ===================== Keyword registry ===================== -/

/-- The nine Target Rule keywords (`src/misc.go` lines 651-661 list
them as map keys; the constants live in the keyword source file, which
is not under `src/`). -/
inductive TargetKeyword where
  | Target
  | TargetTo
  | TargetFrom
  | TargetAttr
  | TargetCtrl
  | TargetScope
  | TargetFilter
  | TargetAttrFilters
  | TargetExtOp
deriving DecidableEq

/-- Canonical text of each Target keyword, per the spec's keyword
catalog (§6) and the rendered outputs asserted throughout
`src/target_test.go` and `src/oid_test.go`. -/
def TargetKeyword.string : TargetKeyword → String
  | .Target => "target"
  | .TargetTo => "target_to"
  | .TargetFrom => "target_from"
  | .TargetAttr => "targetattr"
  | .TargetCtrl => "targetcontrol"
  | .TargetScope => "targetscope"
  | .TargetFilter => "targetfilter"
  | .TargetAttrFilters => "targetattrfilters"
  | .TargetExtOp => "extop"

/-- The eleven Bind Rule keywords (`src/misc.go` lines 665-677 list
them as map keys). -/
inductive BindKeyword where
  | BindUDN
  | BindRDN
  | BindGDN
  | BindIP
  | BindAM
  | BindDNS
  | BindUAT
  | BindGAT
  | BindDoW
  | BindSSF
  | BindToD
deriving DecidableEq

/-- Canonical text of each Bind keyword, per the spec's keyword catalog
(§6) and the rendered outputs asserted in `src/target_test.go`. -/
def BindKeyword.string : BindKeyword → String
  | .BindUDN => "userdn"
  | .BindRDN => "roledn"
  | .BindGDN => "groupdn"
  | .BindIP => "ip"
  | .BindAM => "authmethod"
  | .BindDNS => "dns"
  | .BindUAT => "userattr"
  | .BindGAT => "groupattr"
  | .BindDoW => "dayofweek"
  | .BindSSF => "ssf"
  | .BindToD => "timeofday"

/-- All nine Target keywords. -/
def allTargetKeywords : List TargetKeyword :=
  [.Target, .TargetTo, .TargetFrom, .TargetAttr, .TargetCtrl,
   .TargetScope, .TargetFilter, .TargetAttrFilters, .TargetExtOp]

/-- All eleven Bind keywords. -/
def allBindKeywords : List BindKeyword :=
  [.BindUDN, .BindRDN, .BindGDN, .BindIP, .BindAM, .BindDNS,
   .BindUAT, .BindGAT, .BindDoW, .BindSSF, .BindToD]

/-- Modelled from the spec: `matchTKW`, the Target-keyword resolver
(its source file is not under `src/`; callers appear at `src/misc.go`
lines 137-147 and `src/unnamed/part_000` lines 637-641).  Per §4.1 it
is a case-insensitive exact match against the nine canonical
spellings, `none` modelling the bogus `TargetKeyword(0x0)`. -/
def matchTKW (s : String) : Option TargetKeyword :=
  allTargetKeywords.find? (fun k => eqFold s k.string)

/-- Modelled from the spec: `matchBKW`, the Bind-keyword resolver (its
source file is not under `src/`).  Case-insensitive exact match
against the eleven canonical spellings, `none` modelling the bogus
`BindKeyword(0x0)`. -/
def matchBKW (s : String) : Option BindKeyword :=
  allBindKeywords.find? (fun k => eqFold s k.string)

/-- Translation of the `permittedTargetComparisonOperators` table
(`src/misc.go` lines 651-661): the set of operators each Target
keyword admits. -/
def permittedTargetComparisonOperators : TargetKeyword → List Cop
  | .Target => [.eq, .ne]
  | .TargetTo => [.eq, .ne]
  | .TargetFrom => [.eq, .ne]
  | .TargetCtrl => [.eq, .ne]
  | .TargetAttr => [.eq, .ne]
  | .TargetExtOp => [.eq, .ne]
  | .TargetScope => [.eq]
  | .TargetFilter => [.eq, .ne]
  | .TargetAttrFilters => [.eq]

/-- Translation of the `permittedBindComparisonOperators` table
(`src/misc.go` lines 665-677). -/
def permittedBindComparisonOperators : BindKeyword → List Cop
  | .BindUDN => [.eq, .ne]
  | .BindRDN => [.eq, .ne]
  | .BindGDN => [.eq, .ne]
  | .BindIP => [.eq, .ne]
  | .BindAM => [.eq, .ne]
  | .BindDNS => [.eq, .ne]
  | .BindUAT => [.eq, .ne]
  | .BindGAT => [.eq, .ne]
  | .BindDoW => [.eq, .ne]
  | .BindSSF => [.eq, .ne, .lt, .le, .gt, .ge]
  | .BindToD => [.eq, .ne, .lt, .le, .gt, .ge]

/-- Membership scan of an operator in a permitted-operator slice; the
loop of `src/misc.go` lines 167-173 and 191-197. -/
def copInList (cop : Cop) (l : List Cop) : Bool :=
  l.any (fun k => decide (cop = k))

/-- Translation of `targetKeywordAllowsComparisonOperator`
(`src/misc.go` lines 179-198).  Every genuine keyword is a key of the
permitted map, so the `found` check of the source is vacuous here; the
bogus keyword case is handled by the callers, which pass `Option`. -/
def targetKeywordAllowsComparisonOperator (key : TargetKeyword) (cop : Cop) : Bool :=
  copInList cop (permittedTargetComparisonOperators key)

/-- Translation of `bindKeywordAllowsComparisonOperator`
(`src/misc.go` lines 155-174). -/
def bindKeywordAllowsComparisonOperator (key : BindKeyword) (cop : Cop) : Bool :=
  copInList cop (permittedBindComparisonOperators key)

/-- The `any`-typed operator argument of
`keywordAllowsComparisonOperator` and `SetOperator`: a string, a
comparison-operator value, or any other type (`other`). -/
inductive OpArg where
  | str (s : String)
  | cop (c : Cop)
  | other

/-- The `any`-typed keyword argument of
`keywordAllowsComparisonOperator`: a string, a (possibly bogus) Bind
keyword, a (possibly bogus) Target keyword, or any other type.  The
bogus `BindKeyword(0x0)`/`TargetKeyword(0x0)` values are modelled as
`none` and fail the permitted-map lookup exactly as in the source. -/
inductive KwArg where
  | str (s : String)
  | bkw (k : Option BindKeyword)
  | tkw (k : Option TargetKeyword)
  | other

/-- Translation of `keywordAllowsComparisonOperator` (`src/misc.go`
lines 119-150): resolve the operator (strings via `matchCOP`, any
non-operator type fails), then dispatch on the keyword's type, trying
Bind before Target for string keywords. -/
def keywordAllowsComparisonOperator (kw : KwArg) (op : OpArg) : Bool :=
  let copOpt : Option Cop :=
    match op with
    | .str s => some (matchCOP s)
    | .cop c => some c
    | .other => none
  match copOpt with
  | none => false
  | some cop =>
    match kw with
    | .str s =>
      match matchBKW s with
      | some b => bindKeywordAllowsComparisonOperator b cop
      | none =>
        match matchTKW s with
        | some t => targetKeywordAllowsComparisonOperator t cop
        | none => false
    | .bkw (some b) => bindKeywordAllowsComparisonOperator b cop
    | .bkw none => false
    | .tkw (some t) => targetKeywordAllowsComparisonOperator t cop
    | .tkw none => false
    | .other => false

/- ===================== TargetRule (stackage.Condition alias) ===================== -/

/-- Expression slot of a condition: unset, a scalar string, or a
multi-valued stack whose elements are joined with the `" || "`
delimiter and are individually quoted when `sliceQuoted` is set.  The
stack case models the `stackage.Stack` expression of the `targetattr`,
`target…` and `extop`/`targetcontrol` rules together with the
per-element quotation toggled by the stack's `setQuoteStyle` (the
stack library is external; its rendering contract is fixed by §4.2-4.3
of the spec and the outputs asserted in `src/target_test.go` and
`src/oid_test.go`). -/
inductive CondValue where
  | empty
  | scalar (s : String)
  | multival (vals : List String) (sliceQuoted : Bool)
deriving DecidableEq

/-- TargetRule, a value-semantics model of the `stackage.Condition`
alias of `src/unnamed/part_000`: the stored keyword string, the
operator, the expression, whether the condition encapsulates its
expression in double quotes (`Encap`), and whether it is
parenthesized (`Paren`).  Padding is modelled at its default (enabled):
no claim or test of `src/` exercises a non-default padding state. -/
structure TargetRule where
  kw : String
  op : Cop
  expr : CondValue
  encap : Bool
  paren : Bool
deriving DecidableEq

/-- Translation of `TargetRule.Keyword` (`src/unnamed/part_000` lines
637-641): resolve the stored keyword text through `matchTKW`; `none`
is the bogus keyword returned on failure. -/
def TargetRule.keyword (r : TargetRule) : Option TargetKeyword :=
  matchTKW r.kw

/-- Zero test of a condition; models `stackage.Condition.IsZero`
(external): a condition is zero when nothing has been set on it. -/
def TargetRule.isZero (r : TargetRule) : Bool :=
  decide (r.kw = "" ∧ r.op = Cop.bad ∧ r.expr = CondValue.empty)

/-- Modelled from the spec: `stackage.Condition.Valid` (the stack
library is external to the repository).  Per §4.2 a condition is
invalid when its keyword is missing, its operator is unset, or its
expression is empty/zero; the error is reported as a message string
(`none` = nil error). -/
def conditionValid (r : TargetRule) : Option String :=
  if r.kw = "" then some "cond keyword missing"
  else if r.op = Cop.bad then some "cond operator missing"
  else if r.expr = CondValue.empty then some "cond expression missing"
  else none

/-- Translation of `TargetRule.Valid` (`src/unnamed/part_000` lines
445-458), faithfully including its control flow: a zero receiver
errors; then, when `keywordAllowsComparisonOperator` rejects the
keyword/operator pair, the function RETURNS WITH A NIL ERROR (the
`return` on line 454 leaves the named return `err` at nil); only when
the pair is permitted is the underlying condition validity consulted.
The stackage condition's `Keyword()` yields the stored string and
`Operator()` the stored operator, so the string/operator overloads of
`keywordAllowsComparisonOperator` are the ones taken. -/
def TargetRule.valid (r : TargetRule) : Option String :=
  if r.isZero then some "aci.TargetRule instance is nil"
  else if ¬ keywordAllowsComparisonOperator (.str r.kw) (.cop r.op) then none
  else conditionValid r

/-- Helper for `TargetRule.setOperator`: the final steps of
`src/unnamed/part_000` lines 611-619 — an unresolved operator
(`badCop`) bails out, otherwise the operator is stored. -/
def TargetRule.setOperatorResolved (r : TargetRule) (c : Cop) : TargetRule :=
  if c = Cop.bad then r else { r with op := c }

/-- Translation of `TargetRule.SetOperator` (`src/unnamed/part_000`
lines 595-620): when the rule's current keyword does not allow the
candidate operator the receiver is returned untouched (and no error
exists in the signature); otherwise strings resolve through
`matchCOP`, operator values pass through, any other type bails out,
and an unresolved operator bails out. -/
def TargetRule.setOperator (r : TargetRule) (op : OpArg) : TargetRule :=
  if keywordAllowsComparisonOperator (.tkw r.keyword) op then
    match op with
    | .str s => r.setOperatorResolved (matchCOP s)
    | .cop c => r.setOperatorResolved c
    | .other => r
  else r

/-- Rendering of a condition's expression slot under the condition's
`Encap` setting; models the stackage rendering fixed by §4.2 of the
spec and the outputs asserted in `src/target_test.go` (outer style:
one quote pair around the joined value; slice style: each element
quoted, the `||` delimiters bare). -/
def condValueRender (v : CondValue) (encap : Bool) : String :=
  match v with
  | .empty => if encap then "\"\"" else ""
  | .scalar s => if encap then "\"" ++ s ++ "\"" else s
  | .multival vals sliceQuoted =>
    let elems := if sliceQuoted then vals.map (fun s => "\"" ++ s ++ "\"") else vals
    let joined := String.intercalate " || " elems
    if encap then "\"" ++ joined ++ "\"" else joined

/-- Rendering of a condition with default padding; models
`stackage.Condition.String` per the §6 grammar
(`"(" SP keyword SP operator SP quoted-value SP ")"`, no bounding
parens when parenthesization is off). -/
def conditionRender (r : TargetRule) : String :=
  let body := r.kw ++ " " ++ r.op.string ++ " " ++ condValueRender r.expr r.encap
  if r.paren then "( " ++ body ++ " )" else body

/-- Translation of `TargetRule.String` (`src/unnamed/part_000` lines
499-510): a zero receiver renders the empty string; otherwise the
method FORCES parenthesization on (`if !tr.IsParen() { tr.Paren(true) }`)
before rendering, so the parenthesized form is always produced. -/
def TargetRule.string (r : TargetRule) : String :=
  if r.isZero then "" else conditionRender { r with paren := true }

/-- Translation of `TargetRule.SetQuoteStyle` (`src/unnamed/part_000`
lines 542-578): for the six list-bearing Target keywords with a stack
expression, the stack's per-element quote style is set to the chosen
style and the condition's `Encap` is set to the INVERSE
(`MultivalSliceQuotes = 1` clears `Encap`, otherwise `Encap` is the
double quote); every other keyword only has its `Encap` toggled. -/
def TargetRule.setQuoteStyle (r : TargetRule) (style : Nat) : TargetRule :=
  match r.keyword with
  | some k =>
    if k = .Target ∨ k = .TargetTo ∨ k = .TargetFrom ∨
       k = .TargetExtOp ∨ k = .TargetCtrl ∨ k = .TargetAttr then
      match r.expr with
      | .multival vals _ =>
        { r with expr := .multival vals (style = 1), encap := ¬ (style = 1) }
      | _ => r
    else { r with encap := ¬ (style = 1) }
  | none => { r with encap := ¬ (style = 1) }

/-- Translation of `newTargetRule`/`TR` (`src/unnamed/part_000` lines
420-440): set the keyword, set the operator through the gated
`SetOperator` (starting from the zero condition whose operator is
`badCop`), set the expression imposing the default double-quote
encapsulation, then enable parenthesization. -/
def TR (kw : String) (op : OpArg) (ex : String) : TargetRule :=
  let t0 : TargetRule := { kw := "", op := .bad, expr := .empty, encap := true, paren := false }
  let t1 := { t0 with kw := kw }
  let t2 := t1.setOperator op
  let t3 := { t2 with expr := CondValue.scalar ex, encap := true }
  { t3 with paren := true }

/-- Modelled from the spec: the `AttributeTypes` equality builder
(`TAs().Push(...).Eq()`; the attribute-type source file is not under
`src/`).  Per §4.4 and the outputs of `src/target_test.go` lines
83-130 it produces a `targetattr` equality TargetRule whose expression
is the attribute-type stack joined by `" || "`, outer-quoted by
default. -/
def attributeTypesEq (ats : List String) : TargetRule :=
  { kw := "targetattr", op := .eq, expr := .multival ats false,
    encap := true, paren := true }

/- ===================== TargetRules (stackage.Stack alias) ===================== -/

/-- Stringer for a possibly-bogus Target keyword, as used by
`TargetRules.contains`.  The text of the bogus `TargetKeyword(0x0)`
stringer is not under `src/`; only the fact that it is not one of the
nine canonical spellings matters (so `matchTKW` rejects it). -/
def optTKWString : Option TargetKeyword → String
  | some k => k.string
  | none => "<invalidTargetKeyword>"

/-- Stringer for a possibly-bogus Bind keyword (same modelling note as
`optTKWString`). -/
def optBKWString : Option BindKeyword → String
  | some k => k.string
  | none => "<invalidBindKeyword>"

/-- The `any`-typed argument of `TargetRules.contains`
(`src/unnamed/part_000` lines 935-968): a string, a `Keyword`
interface value (either keyword flavor, possibly bogus), or any other
type. -/
inductive ContainsArg where
  | str (s : String)
  | kwT (k : Option TargetKeyword)
  | kwB (k : Option BindKeyword)
  | other

/-- TargetRules, the Target-Rule collection, modelled as the list of
its elements; the stack configuration fixed by `TRs`
(`src/unnamed/part_000` lines 726-756) — capacity nine, no nesting,
uniqueness push policy — is carried by `TargetRules.pushOne` below. -/
abbrev TargetRules := List TargetRule

/-- Translation of `TargetRules.contains` (`src/unnamed/part_000`
lines 935-968): empty collections match nothing; a string is its own
candidate; a `Keyword` whose text does not resolve through `matchTKW`
is rejected, otherwise its text is the candidate; any other type is
rejected; an empty candidate is rejected; finally the candidate is
compared case-insensitively against each element's
`Keyword().String()`. -/
def TargetRules.contains (r : TargetRules) (x : ContainsArg) : Bool :=
  if r.length = 0 then false
  else
    let cand : Option String :=
      match x with
      | .str s => some s
      | .kwT k => if (matchTKW (optTKWString k)).isSome then some (optTKWString k) else none
      | .kwB k => if (matchTKW (optBKWString k)).isSome then some (optBKWString k) else none
      | .other => none
    match cand with
    | none => false
    | some c =>
      if c = "" then false
      else r.any (fun tr => eqFold (optTKWString tr.keyword) c)

/-- Push of one TargetRule.  Combines `TargetRules.Push`
(`src/unnamed/part_000` lines 825-833) with the `pushPolicy` of lines
906-919 and the stack semantics fixed by §4.3 of the spec: an element
whose policy errors (zero rule, keyword already present) is silently
dropped, as is one overflowing the capacity of nine set by `TRs`. -/
def TargetRules.pushOne (r : TargetRules) (t : TargetRule) : TargetRules :=
  if 9 ≤ r.length then r
  else if t.isZero then r
  else if TargetRules.contains r (.kwT t.keyword) then r
  else r ++ [t]

/-- Variadic `TargetRules.Push` (`src/unnamed/part_000` lines
825-833): each argument is pushed in order through the push policy. -/
def TargetRules.push (r : TargetRules) (xs : List TargetRule) : TargetRules :=
  xs.foldl TargetRules.pushOne r

/- ===================== TargetRuleMethods ===================== -/

/-- The `targetRuleFuncMap` of `src/unnamed/part_000` line 412: a map
from comparison operators to `TargetRuleMethod` closures.  A closure
`func() TargetRule` is modelled by the TargetRule it builds (none of
the embedded claims distinguishes a closure from its result), and the
Go map by an association list. -/
abbrev targetRuleFuncMap := List (Cop × TargetRule)

/-- Association-list lookup mirroring the Go map access
`(*r.targetRuleFuncMap)[ComparisonOperator(tv)]`. -/
def fmLookup : targetRuleFuncMap → Cop → Option TargetRule
  | [], _ => none
  | (k, v) :: rest, c => if k = c then some v else fmLookup rest c

/-- Translation of `rangeTargetRuleFuncMap` (`src/unnamed/part_000`
lines 331-348): scan the map entries, matching the candidate
case-insensitively against each operator's symbol, context name and
description; the zero values `(badCop, nil)` are returned when nothing
matches.  Go map iteration order is unspecified, but the eighteen
forms are pairwise distinct even case-insensitively, so at most one
entry can match and the order is immaterial. -/
def rangeTargetRuleFuncMap (candidate : String) (fm : targetRuleFuncMap) :
    Cop × Option TargetRule :=
  match fm with
  | [] => (Cop.bad, none)
  | (k, v) :: rest =>
    if strInSliceFold candidate [k.string, k.context, k.description] then (k, some v)
    else rangeTargetRuleFuncMap candidate rest

/-- Operator value of a numeric index, the Go conversion
`ComparisonOperator(tv)` for `tv` in 1..6. -/
def copOfNat (n : Nat) : Cop :=
  match n with
  | 1 => .eq
  | 2 => .ne
  | 3 => .lt
  | 4 => .le
  | 5 => .gt
  | 6 => .ge
  | _ => .bad

/-- The `any`-typed index of `TargetRuleMethods.Index`
(`src/unnamed/part_000` lines 289-329): an integer, a
ComparisonOperator, a string, or any other type. -/
inductive IdxArg where
  | int (n : Int)
  | cop (c : Cop)
  | str (s : String)
  | other

/-- Integer branch of `TargetRuleMethods.index` (`src/unnamed/part_000`
lines 311-322): indices outside 1..6 return `(badCop, nil)`; in-range
indices are looked up in the map, an absent entry leaving the zero
results. -/
def trmIndexInt (fm : targetRuleFuncMap) (n : Int) : Cop × Option TargetRule :=
  if ¬ (1 ≤ n ∧ n ≤ 6) then (Cop.bad, none)
  else
    match fmLookup fm (copOfNat n.toNat) with
    | some v => (copOfNat n.toNat, some v)
    | none => (Cop.bad, none)

/-- TargetRuleMethods (`src/unnamed/part_000` lines 234-253): an
optional pointer to a `targetRuleFuncMap`; `none` is the nil (zero)
receiver produced for empty maps. -/
abbrev TargetRuleMethods := Option targetRuleFuncMap

/-- Translation of `TargetRuleMethods.IsZero` (`src/unnamed/part_000`
lines 354-356). -/
def TargetRuleMethods.isZero (r : TargetRuleMethods) : Bool := r.isNone

/-- Translation of `TargetRuleMethods.Index`/`index`
(`src/unnamed/part_000` lines 289-329): a zero receiver returns the
zero values; a ComparisonOperator index recurses as its integer value;
integers go through the 1..6 ranged lookup; strings go through
`rangeTargetRuleFuncMap`; any other type returns the zero values. -/
def TargetRuleMethods.index (r : TargetRuleMethods) (idx : IdxArg) :
    Cop × Option TargetRule :=
  match r with
  | none => (Cop.bad, none)
  | some fm =>
    match idx with
    | .cop c => trmIndexInt fm (Int.ofNat c.toNat)
    | .int n => trmIndexInt fm n
    | .str s => rangeTargetRuleFuncMap s fm
    | .other => (Cop.bad, none)

/- ===================== SecurityStrengthFactor ===================== -/

/-- Decimal digit value of a character, used by the digit-string
parsers; `none` for a non-digit (the digit arithmetic of
`strconv.Atoi`). -/
def charToDigit (c : Char) : Option Nat :=
  if '0' ≤ c ∧ c ≤ '9' then some (c.toNat - Char.toNat '0') else none

/-- Digit-string parse of a natural number (the digits-only fragment
of `strconv.Atoi`, aliased `atoi` in `src/misc.go`): nonempty, all
digits, most-significant first. -/
def parseDecDigits (cs : List Char) : Option Nat :=
  if cs = [] then none
  else if cs.all (fun c => (charToDigit c).isSome) then
    some (cs.foldl (fun a c => a * 10 + (charToDigit c).getD 0) 0)
  else none

/-- The `any`-typed argument of `SecurityStrengthFactor.Set`: an
integer, a string, or any other type. -/
inductive SSFArg where
  | int (n : Int)
  | str (s : String)
  | other

/-- Modelled from the spec: `SecurityStrengthFactor.Set` (its source
file is not under `src/`; `src/target_test.go` lines 273-385 pin the
behavior).  The stored factor is a natural number in 0..256, zero
being the unset state whose stringer is "0".  Per §4.4 and the tests:
integers exactly in 0..256 are stored, out-of-range integers leave
the value unchanged; strings resolve the case-insensitive words
`max`/`full` to 256 and `none`/`off` to 0; other strings parse as
decimal integers with the same 0..256 gate; an unrecognized word
resets the value to the unset (zero) state, as the `fart` case of
`TestSecurityStrengthFactor_codecov` requires regardless of the prior
value. -/
def ssfSet (v : Nat) (a : SSFArg) : Nat :=
  match a with
  | .int n => if 0 ≤ n ∧ n ≤ 256 then n.toNat else v
  | .str s =>
    if lcStr s = "max" ∨ lcStr s = "full" then 256
    else if lcStr s = "none" ∨ lcStr s = "off" then 0
    else
      match parseDecDigits s.data with
      | some n => if n ≤ 256 then n else v
      | none => 0
  | .other => v

/-- Modelled from the spec: `SecurityStrengthFactor.String` renders
the stored factor in decimal, the unset state rendering "0"
(`ExampleSecurityStrengthFactor_Set_byWordNoFactor`). -/
def ssfString (v : Nat) : String := toString v

/- ===================== Inheritance mini-grammar ===================== -/

/-- Inheritance: the parsed `parent[<levels>].<attributeType>#<bindType>`
value (§4.4/§4.5 of the spec; the inheritance source file is not under
`src/`).  Raw text is handled as `List Char` (the grammar is ASCII);
the display order of the levels is preserved. -/
structure Inheritance where
  levels : List Nat
  attr : List Char
  bindTyp : List Char
deriving DecidableEq

/-- The zero Inheritance value, returned alongside every parse
error. -/
def zeroInheritance : Inheritance := { levels := [], attr := [], bindTyp := [] }

/-- The literal `parent[` prefix of the inheritance grammar. -/
def parentPfx : List Char := ['p', 'a', 'r', 'e', 'n', 't', '[']

/-- Modelled from the spec: the fixed invalid-inheritance sentinel
rendered by `Inheritance.String` on a zero/invalid value
(`badInheritance` in the missing inheritance source file; §4.5 step 5
fixes that it is non-empty and distinct from every legal output, and
`TestLevels_bogus` compares against it). -/
def badInheritance : List Char :=
  ['<', 'i', 'n', 'v', 'a', 'l', 'i', 'd', '_', 'i', 'n', 'h', 'e', 'r',
   'i', 't', 'a', 'n', 'c', 'e', '>']

/-- Strip an expected literal prefix, returning the remainder. -/
def stripPfx : List Char → List Char → Option (List Char)
  | [], rest => some rest
  | _ :: _, [] => none
  | p :: ps, c :: cs => if c = p then stripPfx ps cs else none

/-- Split at the first occurrence of a character, the delimiter
excluded from both parts; `none` when the character is absent. -/
def breakAt (d : Char) : List Char → Option (List Char × List Char)
  | [] => none
  | c :: rest =>
    if c = d then some ([], rest)
    else
      match breakAt d rest with
      | none => none
      | some (a, b) => some (c :: a, b)

/-- Split on every occurrence of a character (`strings.Split`
semantics: n separators yield n+1 fields, empty fields included). -/
def splitCh (d : Char) : List Char → List (List Char)
  | [] => [[]]
  | c :: rest =>
    match splitCh d rest with
    | [] => [[]]
    | t :: ts => if c = d then [] :: t :: ts else (c :: t) :: ts

/-- Decimal character of a level digit (levels are 0..9; the
out-of-range branch is never reached on well-formed levels). -/
def digitToChar (n : Nat) : Char :=
  if n ≤ 9 then Char.ofNat (Char.toNat '0' + n) else 'X'

/-- Modelled from the spec: level-token parsing, §4.5 step 3 — every
comma-separated token must parse as an integer in [0,9]; an empty
interior (one empty token) and out-of-range values such as `100` are
rejected. -/
def parseLevels : List (List Char) → Option (List Nat)
  | [] => some []
  | t :: ts =>
    match parseDecDigits t, parseLevels ts with
    | some n, some ns => if n ≤ 9 then some (n :: ns) else none
    | _, _ => none

/-- Modelled from the spec: `parseInheritance` (§4.5; the parser's
source file is not under `src/`, its behavior pinned by
`TestInheritance_parse` and `TestLevels_bogus`).  Steps: reject empty
input; require the `parent[` prefix and a closing `]`; split the
bracket interior on commas into levels, each an integer in [0,9];
require `.` immediately after `]`; split the remainder at the first
`#` into an attribute type satisfying `isIdentifier` (the scanner of
`src/misc.go`) and a non-empty bind type. -/
def parseInheritance (raw : List Char) : Option Inheritance :=
  if raw = [] then none
  else
    match stripPfx parentPfx raw with
    | none => none
    | some rest =>
      match breakAt ']' rest with
      | none => none
      | some (interior, rest2) =>
        match parseLevels (splitCh ',' interior) with
        | none => none
        | some lvls =>
          match rest2 with
          | '.' :: rest3 =>
            match breakAt '#' rest3 with
            | none => none
            | some (attr, bt) =>
              if isIdentifierL attr && decide (bt ≠ []) then
                some { levels := lvls, attr := attr, bindTyp := bt }
              else none
          | _ => none

/-- Rendering of a level list: decimal digits joined by commas. -/
def renderLevels : List Nat → List Char
  | [] => []
  | [n] => [digitToChar n]
  | n :: rest => digitToChar n :: ',' :: renderLevels rest

/-- Well-formedness of an Inheritance value: the constraints §4.4
places on the components (nonempty level list, levels in [0,9],
attribute type an identifier, nonempty bind type). -/
def Inheritance.wellFormed (i : Inheritance) : Bool :=
  decide (i.levels ≠ []) && i.levels.all (fun n => decide (n ≤ 9)) &&
  isIdentifierL i.attr && decide (i.bindTyp ≠ [])

/-- Canonical rendering of a well-formed Inheritance:
`parent[<levels>].<attr>#<bindType>`. -/
def Inheritance.render (i : Inheritance) : List Char :=
  parentPfx ++ (renderLevels i.levels ++ (']' :: '.' :: (i.attr ++ ('#' :: i.bindTyp))))

/-- Modelled from the spec: `Inheritance.String` (§4.5 steps 5-6) —
a zero/invalid value renders the fixed sentinel, a well-formed value
reproduces its raw text byte for byte. -/
def Inheritance.string (i : Inheritance) : List Char :=
  if i.wellFormed then i.render else badInheritance

/-- Raw strings valid under the inheritance grammar (§6:
`inheritance := "parent[" int {"," int} "]." identifier "#" (bindtype | dn)`),
with the levels written in canonical decimal (the only legal values
are the single digits 0..9). -/
def InheritanceGrammar (raw : List Char) : Prop :=
  ∃ i : Inheritance, i.wellFormed = true ∧ raw = i.render

/- ===================== Theorems ===================== -/

/-- C1: the claim reads "Valid() succeeds iff the operator is a member
of the keyword's permitted set; a TargetRule with keyword targetscope
and operator Ne is reported invalid".  The code does the opposite: the
`!keywordAllowsComparisonOperator` branch of `TargetRule.Valid`
(`src/unnamed/part_000` lines 453-455) returns with the named error
still nil, so the targetscope/Ne rule is reported VALID.  This theorem
evaluates the embedded code at the failing input: Ne is not in
targetscope's permitted set `{Eq}`, a non-zero targetscope/Ne
condition gets a nil validity error, and the library-built
`TR(targetscope, Ne, …)` rule (whose gated SetOperator left the
operator at badCop, also outside the permitted set) gets a nil
validity error as well. -/
theorem c1_valid_skips_operator_matrix :
    targetKeywordAllowsComparisonOperator TargetKeyword.TargetScope Cop.ne = false ∧
    (TargetRule.mk "targetscope" Cop.ne
        (CondValue.scalar "ldap:///ou=People,dc=example,dc=com") true true).isZero = false ∧
    (TargetRule.mk "targetscope" Cop.ne
        (CondValue.scalar "ldap:///ou=People,dc=example,dc=com") true true).valid = none ∧
    (TR "targetscope" (.cop .ne) "ldap:///ou=People,dc=example,dc=com").op = Cop.bad ∧
    (TR "targetscope" (.cop .ne) "ldap:///ou=People,dc=example,dc=com").valid = none := by
  decide

/-- C2 (counterexample): the claim reads "resolving an operator from
text succeeds for any of its three forms … matched case-insensitively";
its cited resolver `matchCOP` (`src/misc.go` lines 101-109) matches
only the exact canonical symbol, so the short context name `"Eq"` — a
form of the Eq operator — resolves to the invalid operator. -/
theorem c2_matchCOP_counterexample :
    Cop.context Cop.eq = "Eq" ∧ matchCOP "Eq" = Cop.bad ∧
    matchCOP (Cop.context Cop.eq) ≠ Cop.eq := by
  decide

/-- C6 (counterexample): the claim reads "renders the same text
without the bounding parentheses when parenthesization is disabled";
but `TargetRule.String` (`src/unnamed/part_000` lines 499-510) forces
parenthesization back on before rendering, so a rule whose
parenthesization is disabled still renders with the bounding parens. -/
theorem c6_string_counterexample :
    (TargetRule.mk "target" Cop.eq (CondValue.scalar "ldap:///x") true false).paren = false ∧
    (TargetRule.mk "target" Cop.eq (CondValue.scalar "ldap:///x") true false).isZero = false ∧
    (TargetRule.mk "target" Cop.eq (CondValue.scalar "ldap:///x") true false).string =
      "( target = \"ldap:///x\" )" ∧
    (TargetRule.mk "target" Cop.eq (CondValue.scalar "ldap:///x") true false).string ≠
      "target = \"ldap:///x\"" := by
  decide

/-- C6 (amended): for every non-zero TargetRule, `String()` renders
`( <keyword-text> <operator-symbol> <quoted-expression> )` — with the
bounding parentheses — regardless of whether parenthesization is
enabled or disabled on the receiver, because the method re-enables it
before rendering. -/
theorem c6_string_always_parenthesized (r : TargetRule) (h : r.isZero = false) :
    r.string =
      "( " ++ (r.kw ++ " " ++ r.op.string ++ " " ++ condValueRender r.expr r.encap) ++ " )" := by
  obtain ⟨kw, op, expr, encap, paren⟩ := r
  simp only [TargetRule.string, h, Bool.false_eq_true, if_false, conditionRender, if_pos]

/-- C6 (witness): the amended theorem applied at a concrete rule whose
parenthesization is disabled. -/
theorem c6_witness :
    (TargetRule.mk "target" Cop.eq (CondValue.scalar "ldap:///uid=jesse,ou=People,dc=example,dc=com") true false).string =
      "( target = \"ldap:///uid=jesse,ou=People,dc=example,dc=com\" )" :=
  (c6_string_always_parenthesized
    (TargetRule.mk "target" Cop.eq (CondValue.scalar "ldap:///uid=jesse,ou=People,dc=example,dc=com") true false)
    (by decide)).trans (by decide)

/-- C7: for every TargetRule and every operator argument that the
rule's current keyword does not allow — which covers operators outside
the keyword's permitted set, arguments of an unrecognized type
(`OpArg.other`), and unknown symbol strings, all of which make
`keywordAllowsComparisonOperator` false — `SetOperator` returns the
receiver entirely unchanged (keyword, operator and expression retain
their prior values), and its signature carries no error. -/
theorem c7_setOperator_frame (r : TargetRule) (op : OpArg)
    (h : keywordAllowsComparisonOperator (.tkw r.keyword) op = false) :
    r.setOperator op = r := by
  simp [TargetRule.setOperator, h]

/-- C7 (witness): attempting Ne on a targetscope rule leaves the rule
untouched. -/
theorem c7_witness :
    (TargetRule.mk "targetscope" Cop.eq (CondValue.scalar "onelevel") true true).setOperator (.cop .ne) =
      TargetRule.mk "targetscope" Cop.eq (CondValue.scalar "onelevel") true true :=
  c7_setOperator_frame
    (TargetRule.mk "targetscope" Cop.eq (CondValue.scalar "onelevel") true true)
    (.cop .ne) (by decide)

/-- C8: for the three-element attribute-type list {cn, sn, givenName},
the equality condition renders with one quote pair around the whole
joined value under the outer style (`MultivalOuterQuotes = 0`), and
with each element individually quoted and bare delimiters under the
per-element style (`MultivalSliceQuotes = 1`). -/
theorem c8_quote_style_duality :
    ((attributeTypesEq ["cn", "sn", "givenName"]).setQuoteStyle 0).string =
      "( targetattr = \"cn || sn || givenName\" )" ∧
    ((attributeTypesEq ["cn", "sn", "givenName"]).setQuoteStyle 1).string =
      "( targetattr = \"cn\" || \"sn\" || \"givenName\" )" := by
  decide

/-- Resolution of a canonical Target keyword spelling recovers that
keyword. -/
theorem matchTKW_canonical (k : TargetKeyword) : matchTKW k.string = some k := by
  cases k <;> decide

/-- Canonical Target keyword spellings are nonempty. -/
theorem tkwString_ne_empty (k : TargetKeyword) : ¬ (TargetKeyword.string k = "") := by
  cases k <;> decide

/-- Case-insensitive equality is reflexive. -/
theorem eqFold_refl (s : String) : eqFold s s = true := by
  simp [eqFold]

/-- C3: pushing a TargetRule whose (genuine) Target keyword equals the
keyword of an element already present leaves `Len()` unchanged — the
push policy (`src/unnamed/part_000` lines 906-919) rejects it through
`contains`, and the stack drops the rejected element. -/
theorem c3_push_keyword_unique (rs : TargetRules) (t : TargetRule) (k : TargetKeyword)
    (hk : t.keyword = some k)
    (hmem : ∃ e, e ∈ rs ∧ e.keyword = t.keyword) :
    (TargetRules.push rs [t]).length = rs.length := by
  obtain ⟨e, he, hek⟩ := hmem
  have hlen : ¬ (rs.length = 0) := by
    intro h0
    rw [List.length_eq_zero] at h0
    subst h0
    simp at he
  have hcont : TargetRules.contains rs (ContainsArg.kwT (some k)) = true := by
    unfold TargetRules.contains
    rw [if_neg hlen]
    simp only [optTKWString, matchTKW_canonical k, Option.isSome_some, if_true]
    rw [if_neg (tkwString_ne_empty k)]
    rw [List.any_eq_true]
    refine ⟨e, he, ?_⟩
    rw [hk] at hek
    rw [hek]
    simp only [optTKWString]
    exact eqFold_refl _
  show (TargetRules.pushOne rs t).length = rs.length
  unfold TargetRules.pushOne
  rw [hk, hcont]
  simp

/-- C3 (witness): with a `target` rule already present, pushing a
second rule bearing the `target` keyword leaves the length at one. -/
theorem c3_witness :
    (TargetRules.push
      [TargetRule.mk "target" Cop.eq (CondValue.scalar "uid=a") true true]
      [TargetRule.mk "target" Cop.eq (CondValue.scalar "uid=b") true true]).length = 1 :=
  (c3_push_keyword_unique
    [TargetRule.mk "target" Cop.eq (CondValue.scalar "uid=a") true true]
    (TargetRule.mk "target" Cop.eq (CondValue.scalar "uid=b") true true)
    TargetKeyword.Target
    (by decide)
    ⟨TargetRule.mk "target" Cop.eq (CondValue.scalar "uid=a") true true, by simp, by decide⟩).trans
    rfl

/-- Stripping a literal prefix from a string that carries it returns
the remainder. -/
theorem stripPfx_append (p x : List Char) : stripPfx p (p ++ x) = some x := by
  induction p with
  | nil => rfl
  | cons c cs ih => simp [stripPfx, ih]

/-- Breaking at a delimiter absent from the left part finds exactly
that delimiter. -/
theorem breakAt_append (d : Char) (a b : List Char) (h : ∀ c ∈ a, c ≠ d) :
    breakAt d (a ++ d :: b) = some (a, b) := by
  induction a with
  | nil => simp [breakAt]
  | cons c cs ih =>
    have hc : c ≠ d := h c (List.mem_cons_self c cs)
    have ih2 := ih (fun x hx => h x (List.mem_cons_of_mem c hx))
    simp [breakAt, hc, ih2]

/-- Splitting always yields at least one field. -/
theorem splitCh_ne_nil (d : Char) (l : List Char) : splitCh d l ≠ [] := by
  induction l with
  | nil => simp [splitCh]
  | cons c cs ih =>
    cases hs : splitCh d cs with
    | nil => exact absurd hs ih
    | cons t ts =>
      simp only [splitCh, hs]
      by_cases hc : c = d <;> simp [hc]

/-- Digit characters decode back to their value. -/
theorem charToDigit_digitToChar (n : Nat) (h : n ≤ 9) :
    charToDigit (digitToChar n) = some n := by
  interval_cases n <;> rfl

/-- A level digit is never a character outside the digit alphabet. -/
theorem digitToChar_ne (n : Nat) (h : n ≤ 9) (c : Char) (hc : charToDigit c = none) :
    digitToChar n ≠ c := by
  intro he
  rw [← he, charToDigit_digitToChar n h] at hc
  exact Option.noConfusion hc

/-- A single level digit parses back to its value. -/
theorem parseDecDigits_single (n : Nat) (h : n ≤ 9) :
    parseDecDigits [digitToChar n] = some n := by
  interval_cases n <;> decide

/-- Unfolding equation of `renderLevels` on a two-or-more element
list. -/
theorem renderLevels_cons2 (n m : Nat) (rest : List Nat) :
    renderLevels (n :: m :: rest) = digitToChar n :: ',' :: renderLevels (m :: rest) := rfl

/-- Every character of a rendered level list is a digit or a comma. -/
theorem mem_renderLevels (lvls : List Nat) (h : ∀ n ∈ lvls, n ≤ 9) :
    ∀ c ∈ renderLevels lvls, (charToDigit c).isSome ∨ c = ',' := by
  induction lvls with
  | nil => simp [renderLevels]
  | cons n rest ih =>
    cases rest with
    | nil =>
      intro c hc
      simp [renderLevels] at hc
      subst hc
      left
      rw [charToDigit_digitToChar n (h n (by simp))]
      rfl
    | cons m rest2 =>
      intro c hc
      rw [renderLevels_cons2] at hc
      rcases List.mem_cons.mp hc with rfl | hc2
      · left
        rw [charToDigit_digitToChar n (h n (by simp))]
        rfl
      rcases List.mem_cons.mp hc2 with rfl | hc3
      · right
        rfl
      · exact ih (fun x hx => h x (List.mem_cons_of_mem n hx)) c hc3

/-- Splitting a rendered level list on commas recovers the individual
digit tokens. -/
theorem splitCh_renderLevels (lvls : List Nat) (h9 : ∀ n ∈ lvls, n ≤ 9) (hne : lvls ≠ []) :
    splitCh ',' (renderLevels lvls) = lvls.map (fun n => [digitToChar n]) := by
  induction lvls with
  | nil => exact absurd rfl hne
  | cons n rest ih =>
    have hd : ¬ (digitToChar n = ',') := digitToChar_ne n (h9 n (by simp)) ',' rfl
    cases rest with
    | nil => simp [renderLevels, splitCh, hd]
    | cons m rest2 =>
      have ih2 := ih (fun x hx => h9 x (List.mem_cons_of_mem n hx)) (by simp)
      obtain ⟨t, ts, hts⟩ : ∃ t ts, splitCh ',' (renderLevels (m :: rest2)) = t :: ts := by
        cases hs : splitCh ',' (renderLevels (m :: rest2)) with
        | nil => exact absurd hs (splitCh_ne_nil _ _)
        | cons t ts => exact ⟨t, ts, rfl⟩
      rw [hts] at ih2
      rw [renderLevels_cons2]
      simp [splitCh, hts, hd, ih2]

/-- Parsing the rendered digit tokens recovers the level values. -/
theorem parseLevels_map (lvls : List Nat) (h9 : ∀ n ∈ lvls, n ≤ 9) :
    parseLevels (lvls.map (fun n => [digitToChar n])) = some lvls := by
  induction lvls with
  | nil => rfl
  | cons n rest ih =>
    have h1 := parseDecDigits_single n (h9 n (by simp))
    have ih2 := ih (fun x hx => h9 x (List.mem_cons_of_mem n hx))
    simp [parseLevels, h1, ih2, h9 n (by simp)]

/-- An identifier contains no `#`. -/
theorem isIdentifierL_no_hash (l : List Char) (h : isIdentifierL l = true) :
    ∀ c ∈ l, c ≠ '#' := by
  cases l with
  | nil => simp
  | cons c0 cs =>
    intro c hc he
    subst he
    simp only [isIdentifierL, Bool.and_eq_true, List.all_eq_true] at h
    have := h.2 '#' hc
    exact absurd this (by decide)

/-- Parsing the canonical rendering of a well-formed Inheritance
recovers it exactly. -/
theorem parseInheritance_render (i : Inheritance) (h : i.wellFormed = true) :
    parseInheritance i.render = some i := by
  obtain ⟨lvls, attr, bt⟩ := i
  simp only [Inheritance.wellFormed, Bool.and_eq_true, decide_eq_true_eq,
    List.all_eq_true] at h
  obtain ⟨⟨⟨h1, h2⟩, h3⟩, h4⟩ := h
  have h9 : ∀ n ∈ lvls, n ≤ 9 := fun n hn => by simpa using h2 n hn
  have hnb : ∀ c ∈ renderLevels lvls, c ≠ ']' := by
    intro c hc he
    rcases mem_renderLevels lvls h9 c hc with hd | hcomma
    · rw [he] at hd
      exact absurd hd (by decide)
    · rw [he] at hcomma
      exact absurd hcomma (by decide)
  have hbreak1 : breakAt ']' (renderLevels lvls ++ (']' :: ('.' :: (attr ++ ('#' :: bt))))) =
      some (renderLevels lvls, '.' :: (attr ++ ('#' :: bt))) :=
    breakAt_append ']' (renderLevels lvls) ('.' :: (attr ++ ('#' :: bt))) hnb
  have hsplit := splitCh_renderLevels lvls h9 h1
  have hpl := parseLevels_map lvls h9
  have hbreak2 : breakAt '#' (attr ++ '#' :: bt) = some (attr, bt) :=
    breakAt_append '#' attr bt (isIdentifierL_no_hash attr h3)
  have hne : parentPfx ++ (renderLevels lvls ++ (']' :: '.' :: (attr ++ ('#' :: bt)))) ≠ [] := by
    simp [parentPfx]
  show parseInheritance
      (parentPfx ++ (renderLevels lvls ++ (']' :: '.' :: (attr ++ ('#' :: bt))))) =
      some ⟨lvls, attr, bt⟩
  unfold parseInheritance
  simp only [hne, if_false, stripPfx_append, hbreak1, hsplit, hpl, hbreak2, h3, h4]
  simp [h3, h4]

/-- C4: every raw string valid under the inheritance grammar parses
successfully, and the `String()` of the parsed Inheritance reproduces
the raw text byte for byte. -/
theorem c4_parse_roundtrip (raw : List Char) (h : InheritanceGrammar raw) :
    ∃ j : Inheritance, parseInheritance raw = some j ∧ j.string = raw := by
  obtain ⟨i, hwf, rfl⟩ := h
  exact ⟨i, parseInheritance_render i hwf, by simp [Inheritance.string, hwf]⟩

/-- C4 (witness): the round-trip theorem applied at the spec's own
example `parent[0,5,9].manager#USERDN`. -/
theorem c4_witness :
    ∃ j : Inheritance,
      parseInheritance ("parent[0,5,9].manager#USERDN".data) = some j ∧
      j.string = "parent[0,5,9].manager#USERDN".data :=
  c4_parse_roundtrip ("parent[0,5,9].manager#USERDN".data)
    ⟨{ levels := [0, 5, 9], attr := "manager".data, bindTyp := "USERDN".data },
      by decide, by decide⟩

/-- Rendered inheritance text always begins with `p`. -/
theorem render_headD (i : Inheritance) : (Inheritance.render i).headD ' ' = 'p' := rfl

/-- C5: each of the four malformed inputs fails parsing; the zero
Inheritance renders the fixed invalid-inheritance sentinel; and that
sentinel differs from the empty string and from the `String()` of
every well-formed (legal) Inheritance. -/
theorem c5_malformed_rejection :
    parseInheritance ("parent[100].manager#USERDN".data) = none ∧
    parseInheritance ("parent[].manager#SELFDN".data) = none ∧
    parseInheritance ("parent[4]#ROLEDN".data) = none ∧
    parseInheritance ("parent[0]].owner#GROUPDN".data) = none ∧
    Inheritance.string zeroInheritance = badInheritance ∧
    badInheritance ≠ [] ∧
    (∀ i : Inheritance, i.wellFormed = true → i.string ≠ badInheritance) := by
  refine ⟨by decide, by decide, by decide, by decide, by decide, by decide, ?_⟩
  intro i hwf he
  rw [Inheritance.string, if_pos hwf] at he
  have h0 : (Inheritance.render i).headD ' ' = badInheritance.headD ' ' :=
    congrArg (fun l => l.headD ' ') he
  rw [render_headD] at h0
  exact absurd h0 (by decide)

/-- C5 (witness): the sentinel-separation clause of the theorem
applied at a concrete well-formed Inheritance. -/
theorem c5_witness :
    Inheritance.string { levels := [0], attr := "owner".data, bindTyp := "GROUPDN".data } ≠
      badInheritance :=
  c5_malformed_rejection.2.2.2.2.2.2
    { levels := [0], attr := "owner".data, bindTyp := "GROUPDN".data } (by decide)

/-- C9: the word aliases of `SecurityStrengthFactor.Set` — any casing
of `none`/`off` yields the factor whose `String()` is "0"; any casing
of `max`/`full` yields "256"; the integer 128 yields "128"; and any
unrecognized (non-numeric) word leaves the value at "0", whatever the
prior value was. -/
theorem c9_ssf_word_aliases :
    (∀ (v : Nat) (s : String), lcStr s = "none" ∨ lcStr s = "off" →
      ssfString (ssfSet v (.str s)) = "0") ∧
    (∀ (v : Nat) (s : String), lcStr s = "max" ∨ lcStr s = "full" →
      ssfString (ssfSet v (.str s)) = "256") ∧
    (∀ v : Nat, ssfString (ssfSet v (.int 128)) = "128") ∧
    (∀ (v : Nat) (s : String),
      lcStr s ≠ "none" → lcStr s ≠ "off" → lcStr s ≠ "max" → lcStr s ≠ "full" →
      parseDecDigits s.data = none → ssfString (ssfSet v (.str s)) = "0") := by
  refine ⟨?_, ?_, ?_, ?_⟩
  · intro v s h
    have hmf : ¬ (lcStr s = "max" ∨ lcStr s = "full") := by
      rcases h with h | h <;> rw [h] <;> decide
    simp only [ssfSet]
    rw [if_neg hmf, if_pos h]
    decide
  · intro v s h
    simp only [ssfSet]
    rw [if_pos h]
    decide
  · intro v
    simp only [ssfSet]
    rw [if_pos (by decide : (0 : Int) ≤ 128 ∧ (128 : Int) ≤ 256)]
    decide
  · intro v s h1 h2 h3 h4 h5
    simp only [ssfSet]
    rw [if_neg (not_or.mpr ⟨h3, h4⟩), if_neg (not_or.mpr ⟨h1, h2⟩)]
    simp only [h5]
    decide

/-- C9 (witness): the alias clauses applied at the concrete inputs of
`TestSecurityStrengthFactor_codecov`, starting from a prior value of
42. -/
theorem c9_witness :
    ssfString (ssfSet 42 (.str "nOnE")) = "0" ∧
    ssfString (ssfSet 42 (.str "OFF")) = "0" ∧
    ssfString (ssfSet 42 (.str "mAx")) = "256" ∧
    ssfString (ssfSet 42 (.str "full")) = "256" ∧
    ssfString (ssfSet 42 (.int 128)) = "128" ∧
    ssfString (ssfSet 42 (.str "fart")) = "0" :=
  ⟨c9_ssf_word_aliases.1 42 "nOnE" (Or.inl (by decide)),
   c9_ssf_word_aliases.1 42 "OFF" (Or.inr (by decide)),
   c9_ssf_word_aliases.2.1 42 "mAx" (Or.inl (by decide)),
   c9_ssf_word_aliases.2.1 42 "full" (Or.inr (by decide)),
   c9_ssf_word_aliases.2.2.1 42,
   c9_ssf_word_aliases.2.2.2 42 "fart" (by decide) (by decide) (by decide) (by decide)
     (by decide)⟩

/-- Scanning a func map in which no entry's three forms match the
candidate returns the zero values. -/
theorem range_no_match (s : String) (fm : targetRuleFuncMap)
    (h : ∀ kv ∈ fm, strInSliceFold s [kv.1.string, kv.1.context, kv.1.description] = false) :
    rangeTargetRuleFuncMap s fm = (Cop.bad, none) := by
  induction fm with
  | nil => rfl
  | cons kv rest ih =>
    obtain ⟨k, v⟩ := kv
    have h1 := h (k, v) (List.mem_cons_self _ _)
    simp only [rangeTargetRuleFuncMap, h1, Bool.false_eq_true, if_false]
    exact ih (fun x hx => h x (List.mem_cons_of_mem _ hx))

/-- C10: `TargetRuleMethods.Index` is total and returns the invalid
operator with a nil method for every aberrant input: a zero (nil-map)
receiver with any index, an integer outside 1..6, the out-of-range
ComparisonOperator (`badCop`, the only operator value outside 1..6),
a string matching no entry's three forms, and a value of any other
type. -/
theorem c10_index_total :
    (∀ idx : IdxArg, TargetRuleMethods.index none idx = (Cop.bad, none)) ∧
    (∀ (fm : targetRuleFuncMap) (n : Int), ¬ (1 ≤ n ∧ n ≤ 6) →
      TargetRuleMethods.index (some fm) (.int n) = (Cop.bad, none)) ∧
    (∀ fm : targetRuleFuncMap,
      TargetRuleMethods.index (some fm) (.cop Cop.bad) = (Cop.bad, none)) ∧
    (∀ (fm : targetRuleFuncMap) (s : String),
      (∀ kv ∈ fm, strInSliceFold s [kv.1.string, kv.1.context, kv.1.description] = false) →
      TargetRuleMethods.index (some fm) (.str s) = (Cop.bad, none)) ∧
    (∀ fm : targetRuleFuncMap,
      TargetRuleMethods.index (some fm) IdxArg.other = (Cop.bad, none)) := by
  refine ⟨fun idx => rfl, ?_, ?_, ?_, fun fm => rfl⟩
  · intro fm n h
    show trmIndexInt fm n = (Cop.bad, none)
    unfold trmIndexInt
    rw [if_pos h]
  · intro fm
    show trmIndexInt fm (Int.ofNat Cop.bad.toNat) = (Cop.bad, none)
    unfold trmIndexInt
    rw [if_pos (by decide)]
  · intro fm s h
    exact range_no_match s fm h

/-- C10 (witness): the totality theorem applied at concrete aberrant
inputs over a one-entry func map. -/
theorem c10_witness :
    TargetRuleMethods.index none (.int 1) = (Cop.bad, none) ∧
    TargetRuleMethods.index
      (some [(Cop.eq, TargetRule.mk "target" Cop.eq (CondValue.scalar "x") true true)])
      (.int 7) = (Cop.bad, none) ∧
    TargetRuleMethods.index
      (some [(Cop.eq, TargetRule.mk "target" Cop.eq (CondValue.scalar "x") true true)])
      (.cop Cop.bad) = (Cop.bad, none) ∧
    TargetRuleMethods.index
      (some [(Cop.eq, TargetRule.mk "target" Cop.eq (CondValue.scalar "x") true true)])
      (.str "bogus") = (Cop.bad, none) ∧
    TargetRuleMethods.index
      (some [(Cop.eq, TargetRule.mk "target" Cop.eq (CondValue.scalar "x") true true)])
      IdxArg.other = (Cop.bad, none) :=
  ⟨c10_index_total.1 (.int 1),
   c10_index_total.2.1 _ 7 (by decide),
   c10_index_total.2.2.1 _,
   c10_index_total.2.2.2.1 _ "bogus" (by decide),
   c10_index_total.2.2.2.2 _⟩

/-- Characterization of the case-insensitive slice membership. -/
theorem strInSliceFold_iff (s : String) (l : List String) :
    strInSliceFold s l = true ↔ ∃ t ∈ l, lcStr s = lcStr t := by
  simp [strInSliceFold, eqFold, List.any_eq_true, beq_iff_eq]

/-- The eighteen operator forms are pairwise distinct across distinct
operators, even case-insensitively. -/
theorem copForms_disjoint :
    ∀ c ∈ sixCops, ∀ c2 ∈ sixCops, c ≠ c2 →
      ∀ t ∈ [c.string, c.context, c.description],
        ∀ t2 ∈ [c2.string, c2.context, c2.description], ¬ (lcStr t = lcStr t2) := by
  decide

/-- A candidate matching one operator's forms matches no other
operator's forms. -/
theorem fold_disjoint (cand : String) (c c2 : Cop) (hc : c ∈ sixCops) (hc2 : c2 ∈ sixCops)
    (hne : c ≠ c2) (h : strInSliceFold cand [c.string, c.context, c.description] = true) :
    strInSliceFold cand [c2.string, c2.context, c2.description] = false := by
  rcases (strInSliceFold_iff _ _).mp h with ⟨t, ht, heq⟩
  cases hs : strInSliceFold cand [c2.string, c2.context, c2.description] with
  | false => rfl
  | true =>
    rcases (strInSliceFold_iff _ _).mp hs with ⟨t2, ht2, heq2⟩
    exact absurd (heq.symm.trans heq2) (copForms_disjoint c hc c2 hc2 hne t ht t2 ht2)

/-- A matching head entry is returned by the scan. -/
theorem range_cons_pos (cand : String) (k : Cop) (v : TargetRule) (rest : targetRuleFuncMap)
    (h : strInSliceFold cand [k.string, k.context, k.description] = true) :
    rangeTargetRuleFuncMap cand ((k, v) :: rest) = (k, some v) := by
  simp [rangeTargetRuleFuncMap, h]

/-- A non-matching head entry is skipped by the scan. -/
theorem range_cons_neg (cand : String) (k : Cop) (v : TargetRule) (rest : targetRuleFuncMap)
    (h : strInSliceFold cand [k.string, k.context, k.description] = false) :
    rangeTargetRuleFuncMap cand ((k, v) :: rest) = rangeTargetRuleFuncMap cand rest := by
  simp [rangeTargetRuleFuncMap, h]

/-- C2 (amended): operator resolution through the string index of
`TargetRuleMethods` (`rangeTargetRuleFuncMap`) accepts, for every
operator in the map, any text matching one of its three forms
case-insensitively, and text matching no operator's forms resolves to
the invalid operator; `matchCOP` — the resolver used by `SetOperator`
and the parsers — matches only the exact canonical symbol, so only
symbol text resolves there. -/
theorem c2_operator_resolution :
    (∀ (f : Cop → TargetRule) (cand : String) (c : Cop), c ∈ sixCops →
      strInSliceFold cand [c.string, c.context, c.description] = true →
      rangeTargetRuleFuncMap cand (sixCops.map (fun k => (k, f k))) = (c, some (f c))) ∧
    (∀ (f : Cop → TargetRule) (cand : String),
      (∀ c ∈ sixCops, strInSliceFold cand [c.string, c.context, c.description] = false) →
      rangeTargetRuleFuncMap cand (sixCops.map (fun k => (k, f k))) = (Cop.bad, none)) ∧
    (∀ (s : String) (c : Cop), matchCOP s = c → c ≠ Cop.bad → s = c.string) ∧
    (∀ c ∈ sixCops, matchCOP c.string = c) := by
  refine ⟨?_, ?_, ?_, by decide⟩
  · intro f cand c hc hmatch
    simp only [sixCops, List.map_cons, List.map_nil]
    fin_cases hc
    · rw [range_cons_pos _ _ _ _ hmatch]
    · rw [range_cons_neg _ _ _ _
          (fold_disjoint cand .ne .eq (by decide) (by decide) (by decide) hmatch),
        range_cons_pos _ _ _ _ hmatch]
    · rw [range_cons_neg _ _ _ _
          (fold_disjoint cand .lt .eq (by decide) (by decide) (by decide) hmatch),
        range_cons_neg _ _ _ _
          (fold_disjoint cand .lt .ne (by decide) (by decide) (by decide) hmatch),
        range_cons_pos _ _ _ _ hmatch]
    · rw [range_cons_neg _ _ _ _
          (fold_disjoint cand .le .eq (by decide) (by decide) (by decide) hmatch),
        range_cons_neg _ _ _ _
          (fold_disjoint cand .le .ne (by decide) (by decide) (by decide) hmatch),
        range_cons_neg _ _ _ _
          (fold_disjoint cand .le .lt (by decide) (by decide) (by decide) hmatch),
        range_cons_pos _ _ _ _ hmatch]
    · rw [range_cons_neg _ _ _ _
          (fold_disjoint cand .gt .eq (by decide) (by decide) (by decide) hmatch),
        range_cons_neg _ _ _ _
          (fold_disjoint cand .gt .ne (by decide) (by decide) (by decide) hmatch),
        range_cons_neg _ _ _ _
          (fold_disjoint cand .gt .lt (by decide) (by decide) (by decide) hmatch),
        range_cons_neg _ _ _ _
          (fold_disjoint cand .gt .le (by decide) (by decide) (by decide) hmatch),
        range_cons_pos _ _ _ _ hmatch]
    · rw [range_cons_neg _ _ _ _
          (fold_disjoint cand .ge .eq (by decide) (by decide) (by decide) hmatch),
        range_cons_neg _ _ _ _
          (fold_disjoint cand .ge .ne (by decide) (by decide) (by decide) hmatch),
        range_cons_neg _ _ _ _
          (fold_disjoint cand .ge .lt (by decide) (by decide) (by decide) hmatch),
        range_cons_neg _ _ _ _
          (fold_disjoint cand .ge .le (by decide) (by decide) (by decide) hmatch),
        range_cons_neg _ _ _ _
          (fold_disjoint cand .ge .gt (by decide) (by decide) (by decide) hmatch),
        range_cons_pos _ _ _ _ hmatch]
  · intro f cand h
    apply range_no_match
    intro kv hkv
    simp only [sixCops, List.map_cons, List.map_nil, List.mem_cons,
      List.not_mem_nil, or_false] at hkv
    rcases hkv with rfl | rfl | rfl | rfl | rfl | rfl <;> exact h _ (by simp [sixCops])
  · intro s c hm hbad
    unfold matchCOP at hm
    cases hf : comparisonOperatorMap.find? (fun kv => decide (s = kv.1)) with
    | none =>
      rw [hf] at hm
      exact absurd hm.symm hbad
    | some kv =>
      rw [hf] at hm
      have hp := List.find?_some hf
      have hmem := List.mem_of_find?_eq_some hf
      have hstr : kv.1 = Cop.string kv.2 := by
        simp only [comparisonOperatorMap, List.mem_cons, List.not_mem_nil, or_false] at hmem
        rcases hmem with rfl | rfl | rfl | rfl | rfl | rfl <;> rfl
      rw [← hm, ← hstr]
      exact of_decide_eq_true hp
